import Mathlib

/-!
Verification of the WeRead client core (`src/weread/client.py`) against its
natural-language specification.

The Python code is shallowly embedded: each method of `WeReadClient` becomes a
Lean function over explicit models of the upstream HTTP responses.  Machine-level
concerns are made explicit:

* `hashlib.md5(...).hexdigest()` is an external library call; it is modelled as
  an abstract parameter `md5hex : String → String`.
* Python exceptions (`ValueError` from `int`, `KeyError` from `dict.pop` /
  `dict[...]`, `AttributeError`) are modelled with `Option` / an explicit
  result type: `none` (resp. `.exn`) means the call raises.
* Python's `re` module and `int()` builtin are Unicode-aware; the relevant
  behaviours (the `Nd` decimal-digit category for `\d` and for `int`, `$`
  matching just before a trailing newline, whitespace stripping in `int`) are
  modelled explicitly below.
-/

namespace WeRead

/-- Digits of `n` in base 16, most significant first, lowercase letters;
`fuel`-structured so that the kernel can evaluate it. -/
def hexDigitsAux : Nat → Nat → List Char
  | 0, _ => []
  | fuel + 1, n =>
    if n < 16 then [Nat.digitChar n]
    else hexDigitsAux fuel (n / 16) ++ [Nat.digitChar (n % 16)]

/-- The characters of Python `format(n, "x")` for a non-negative `n`
(`n + 1` is always enough fuel since `n / 16 < n` for `n ≥ 16`). -/
def hexDigits (n : Nat) : List Char := hexDigitsAux (n + 1) n

/-- Python `format(n, "x")`: lowercase hexadecimal, no padding, `"0"` for `0`. -/
def toHexLower (n : Nat) : String := String.mk (hexDigits n)

/-- First code points of the ten-code-point runs forming the Unicode `Nd`
(decimal digit) category.  Python's `\d` (on `str`) matches exactly the `Nd`
characters, and `int()` accepts them with their decimal digit values. -/
def ndStarts : List Nat :=
  [0x30, 0x660, 0x6F0, 0x7C0, 0x966, 0x9E6, 0xA66, 0xAE6, 0xB66, 0xBE6,
   0xC66, 0xCE6, 0xD66, 0xDE6, 0xE50, 0xED0, 0xF20, 0x1040, 0x1090, 0x17E0,
   0x1810, 0x1946, 0x19D0, 0x1A80, 0x1A90, 0x1B50, 0x1BB0, 0x1C40, 0x1C50,
   0xA620, 0xA8D0, 0xA900, 0xA9D0, 0xA9F0, 0xAA50, 0xABF0, 0xFF10,
   0x104A0, 0x10D30, 0x11066, 0x110F0, 0x11136, 0x111D0, 0x112F0, 0x11450,
   0x114D0, 0x11650, 0x116C0, 0x11730, 0x118E0, 0x11950, 0x11C50, 0x11D50,
   0x11DA0, 0x11F50, 0x16A60, 0x16AC0, 0x16B50, 0x1D7CE, 0x1D7D8, 0x1D7E2,
   0x1D7EC, 0x1D7F6, 0x1E140, 0x1E2F0, 0x1E4F0, 0x1E950, 0x1FBF0]

/-- `c` is a Unicode decimal digit (category `Nd`), as matched by Python `\d`. -/
def isNd (c : Char) : Bool := ndStarts.any fun s => s ≤ c.toNat && c.toNat < s + 10

/-- Decimal digit value of an `Nd` character (junk value `0` otherwise). -/
def ndVal (c : Char) : Nat :=
  match ndStarts.find? (fun s => s ≤ c.toNat && c.toNat < s + 10) with
  | some s => c.toNat - s
  | none => 0

/-- Code points of the whitespace stripped by Python `int()` around a
numeric literal (`Py_UNICODE_ISSPACE`). -/
def wsVals : List Nat :=
  [0x9, 0xA, 0xB, 0xC, 0xD, 0x1C, 0x1D, 0x1E, 0x1F, 0x20, 0x85, 0xA0,
   0x1680, 0x2000, 0x2001, 0x2002, 0x2003, 0x2004, 0x2005, 0x2006, 0x2007,
   0x2008, 0x2009, 0x200A, 0x2028, 0x2029, 0x202F, 0x205F, 0x3000]

/-- Whitespace stripped by Python `int()` around a numeric literal. -/
def isPyWS (c : Char) : Bool := wsVals.any fun n => c.toNat == n

/-- Continuation of a base-10 digit run in a Python `int()` literal:
digits accumulate; a single `_` is allowed between two digits. -/
def parseDigitsTail (acc : Nat) : List Char → Option Nat
  | [] => some acc
  | c :: rest =>
    if isNd c then parseDigitsTail (10 * acc + ndVal c) rest
    else if c = '_' then
      match rest with
      | d :: rest2 =>
        if isNd d then parseDigitsTail (10 * acc + ndVal d) rest2 else none
      | [] => none
    else none

/-- A non-empty base-10 digit run (first character must be a digit). -/
def parseDigits : List Char → Option Nat
  | [] => none
  | c :: rest => if isNd c then parseDigitsTail (ndVal c) rest else none

/-- The sign-and-digits part of a Python `int()` literal, after whitespace
has been stripped. -/
def pyIntSign (l : List Char) : Option Int :=
  match l with
  | [] => none
  | c :: r =>
    if c = '+' then (parseDigits r).map fun n => (n : Int)
    else if c = '-' then (parseDigits r).map fun n => -(n : Int)
    else (parseDigits (c :: r)).map fun n => (n : Int)

/-- Python `int(s)` on a string: strips surrounding whitespace, allows one
sign, then a non-empty digit run; `none` models the `ValueError` raise. -/
def pyIntList (l : List Char) : Option Int :=
  pyIntSign ((l.dropWhile isPyWS).reverse.dropWhile isPyWS).reverse

/-- Python `int(s)` for `s : String`. -/
def pyInt (s : String) : Option Int := pyIntList s.toList

/-- Python `re.match("^\\d*$", s) is not None`.  `\d` matches any `Nd`
character; `$` matches at the end of the string or just before a newline
that is the last character. -/
def reMatchAllDigits (l : List Char) : Bool :=
  l.all isNd || (match l.getLast? with
    | some c => c = '\n' && l.dropLast.all isNd
    | none => false)

/-- Chunking of a character list into consecutive blocks of at most 9,
`fuel`-structured so that the kernel can evaluate it. -/
def chunks9Aux : Nat → List Char → List (List Char)
  | 0, _ => []
  | fuel + 1, l => if l = [] then [] else l.take 9 :: chunks9Aux fuel (l.drop 9)

/-- The slices `book_id[i : min(i+9, len)]` for `i = 0, 9, 18, ...` —
the chunk loop of `transform_id` (`l.length` is always enough fuel). -/
def chunks9 (l : List Char) : List (List Char) := chunks9Aux l.length l

/-- `list(map(f, l))` when `f` can raise: `none` propagates the exception. -/
def mapOpt (f : α → Option β) : List α → Option (List β)
  | [] => some []
  | x :: xs =>
    match f x with
    | none => none
    | some y => (mapOpt f xs).map fun ys => y :: ys

/-- `format(int(chunk), "x")` for one chunk of the numeric branch of
`transform_id`; `none` models the `ValueError` raise of `int`. -/
def pyChunkVal (chunk : List Char) : Option String :=
  (pyIntList chunk).map fun n => toHexLower n.toNat

/-- Translated from `WeReadClient.transform_id` (client.py:227-249).
If `book_id` matches `^\d*$` it is split into chunks of at most 9 characters,
each passed through `int()` and rendered in hex (mode `"3"`); a chunk on which
`int()` raises `ValueError` makes the whole call raise (`none`).  Otherwise
every character's code point is rendered in hex and the results accumulated
into one segment (mode `"4"`). -/
def transform_id (book_id : String) : Option (String × List String) :=
  if reMatchAllDigits book_id.toList then
    (mapOpt pyChunkVal (chunks9 book_id.toList)).map fun ary => ("3", ary)
  else
    some ("4",
      [book_id.toList.foldl (fun acc c => acc ++ toHexLower c.toNat) ""])

/-- `format(len(seg), "x")`, left-padded with one `"0"` when it is a single
character — the length-prefix computation in `calculate_book_str_id`. -/
def hexLen2 (n : Nat) : String :=
  let h := toHexLower n
  if h.length = 1 then "0" ++ h else h

/-- The segment loop of `calculate_book_str_id`: each segment is preceded by
its length prefix, with `"g"` appended after every segment but the last. -/
def joinSegs : List String → String
  | [] => ""
  | [x] => hexLen2 x.length ++ x
  | x :: y :: rest => hexLen2 x.length ++ x ++ "g" ++ joinSegs (y :: rest)

/-- Python slice `s[0:n]`. -/
def strTake (s : String) (n : Nat) : String := String.mk (s.toList.take n)

/-- Python slice `s[-n:]` (for `n ≤ len(s)` the last `n` characters;
for shorter strings the whole string, as in Python). -/
def strLastN (s : String) (n : Nat) : String :=
  String.mk (s.toList.drop (s.toList.length - n))

/-- Translated from `WeReadClient.calculate_book_str_id` (client.py:191-225).
`md5hex` stands for `hashlib.md5(arg.encode("utf-8")).hexdigest()`, an
external library call modelled as a parameter.  The result is `none` exactly
when `transform_id` raises. -/
def calculate_book_str_id (md5hex : String → String) (book_id : String) :
    Option String :=
  (transform_id book_id).map fun p =>
    let digest := md5hex book_id
    let r1 := strTake digest 3 ++ p.1 ++ "2" ++ strLastN digest 2
    let r2 := r1 ++ joinSegs p.2
    let r3 := if r2.length < 20 then r2 ++ strTake digest (20 - r2.length) else r2
    r3 ++ strTake (md5hex r3) 3

/-! ### Spec-side assembly of the web identifier (claim C1)

`buildWebIdSpec` below follows the wording of spec steps 5-8, to be compared
with the translation `calculate_book_str_id` of the source. -/

/-- Zero-pad a lowercase-hex string on the left to width 2 (spec step 6:
"zero-padded to width 2"). -/
def padZero2 (h : String) : String :=
  String.mk (List.replicate (2 - h.length) '0') ++ h

/-- Spec step 6, one segment: 2-digit zero-padded lowercase-hex length
prefix followed by the segment itself. -/
def specSegBlock (seg : String) : String :=
  padZero2 (toHexLower seg.length) ++ seg

/-- Spec steps 5-8: header from the digest and mode code, length-prefixed
segments separated by `"g"`, padding from the digest up to 20 characters,
and the first 3 hex characters of a second digest. -/
def buildWebIdSpec (md5hex : String → String) (book_id code : String)
    (segs : List String) : String :=
  let digest := md5hex book_id
  let r := strTake digest 3 ++ code ++ "2" ++ strLastN digest 2 ++
    String.join (List.intersperse "g" (segs.map specSegBlock))
  let r2 := if r.length < 20 then r ++ strTake digest (20 - r.length) else r
  r2 ++ strTake (md5hex r2) 3

theorem hexDigits_ne_nil (n : Nat) : hexDigits n ≠ [] := by
  show hexDigitsAux (n + 1) n ≠ []
  simp only [hexDigitsAux]
  split <;> simp

theorem toHexLower_length_pos (n : Nat) : 1 ≤ (toHexLower n).length := by
  show 1 ≤ (hexDigits n).length
  have h := hexDigits_ne_nil n
  cases hd : hexDigits n with
  | nil => exact absurd hd h
  | cons a l => simp

theorem hexLen2_eq_padZero2 (n : Nat) : hexLen2 n = padZero2 (toHexLower n) := by
  unfold hexLen2 padZero2
  by_cases h : (toHexLower n).length = 1
  · rw [if_pos h, h]
    rfl
  · rw [if_neg h]
    have h1 := toHexLower_length_pos n
    have h2 : 2 - (toHexLower n).length = 0 := by omega
    rw [h2]
    simp

theorem String_foldl_append (l : List String) (init : String) :
    l.foldl (· ++ ·) init = init ++ String.join l := by
  induction l generalizing init with
  | nil => simp [String.join]
  | cons x xs ih =>
    show (xs.foldl (· ++ ·) (init ++ x)) = _
    rw [ih]
    have : String.join (x :: xs) = x ++ String.join xs := by
      show (x :: xs).foldl (· ++ ·) "" = _
      show (xs.foldl (· ++ ·) ("" ++ x)) = _
      rw [ih]
      simp
    rw [this, String.append_assoc]

theorem String_join_cons (x : String) (xs : List String) :
    String.join (x :: xs) = x ++ String.join xs := by
  show (xs.foldl (· ++ ·) ("" ++ x)) = _
  rw [String_foldl_append]
  simp

theorem joinSegs_eq_spec (segs : List String) :
    joinSegs segs =
      String.join (List.intersperse "g" (segs.map specSegBlock)) := by
  induction segs with
  | nil => rfl
  | cons x xs ih =>
    cases xs with
    | nil =>
      show hexLen2 x.length ++ x = _
      rw [hexLen2_eq_padZero2]
      simp only [List.map_cons, List.map_nil, List.intersperse_singleton,
        String_join_cons, specSegBlock, String.append_assoc]
      simp [String.join]
    | cons y ys =>
      show hexLen2 x.length ++ x ++ "g" ++ joinSegs (y :: ys) = _
      rw [ih, hexLen2_eq_padZero2]
      simp only [List.map_cons, List.intersperse_cons_cons, String_join_cons,
        specSegBlock, String.append_assoc]

/-- C1: for every input string, `calculate_book_str_id` returns exactly the
string assembled per the spec: the first 3 characters of the MD5 hex digest,
the mode code from `transform_id`, the literal `"2"`, the last 2 digest
characters; then each `transform_id` segment with a 2-digit zero-padded
lowercase-hex length prefix, `"g"` after every segment but the last; then,
if still shorter than 20, the first `20 − length` digest characters; and
finally the first 3 hex characters of the MD5 digest of the string so far.
(When `transform_id` raises, both sides raise.) -/
theorem C1_calculate_book_str_id_assembles_spec (md5hex : String → String)
    (book_id : String) :
    calculate_book_str_id md5hex book_id =
      (transform_id book_id).map fun p =>
        buildWebIdSpec md5hex book_id p.1 p.2 := by
  unfold calculate_book_str_id buildWebIdSpec
  cases transform_id book_id with
  | none => rfl
  | some p =>
    simp only [Option.map_some']
    rw [joinSegs_eq_spec]

/-! ### Spec-side formulation of `transform_id` (claims C2 and C7)

The definitions below follow the (amended) spec wording, phrased
independently of the source translation: classification via the last
character, chunk extraction by slice positions, chunk values by folding
decimal digit values after stripping one trailing newline. -/

/-- Decimal value of a digit list (most significant first). -/
def digitsVal (l : List Char) : Nat := l.foldl (fun a c => 10 * a + ndVal c) 0

/-- Spec-side classification: every character a Unicode decimal digit,
allowing a single trailing newline (what `^\d*$` accepts in Python). -/
def specMatchPy (l : List Char) : Bool :=
  l.dropLast.all isNd && l.getLast?.all fun c => isNd c || c = '\n'

/-- Spec-side chunking: the `i`-th chunk is the up-to-9-character slice
starting at position `9·i`. -/
def specChunks (l : List Char) : List (List Char) :=
  (List.range ((l.length + 8) / 9)).map fun i => (l.drop (9 * i)).take 9

/-- Spec-side chunk value: strip one trailing newline, require a non-empty
all-digit body, fold the decimal digit values, render in lowercase hex. -/
def specChunkVal (chunk : List Char) : Option String :=
  let body := if chunk.getLast? = some '\n' then chunk.dropLast else chunk
  if body.isEmpty then none
  else if body.all isNd then some (toHexLower (digitsVal body)) else none

/-- The amended-C2 spec-side description of `transform_id`. -/
def transformIdSpec (book_id : String) : Option (String × List String) :=
  if specMatchPy book_id.toList then
    (mapOpt specChunkVal (specChunks book_id.toList)).map fun segs => ("3", segs)
  else
    some ("4", [String.join (book_id.toList.map fun c => toHexLower c.toNat)])

theorem chunks9Aux_nil (f : Nat) : chunks9Aux f [] = [] := by cases f <;> rfl

theorem chunks9Aux_congr :
    ∀ (f₁ f₂ : Nat) (l : List Char), l.length ≤ f₁ → l.length ≤ f₂ →
      chunks9Aux f₁ l = chunks9Aux f₂ l := by
  intro f₁
  induction f₁ with
  | zero =>
    intro f₂ l h1 _
    have hl : l = [] := by cases l with
      | nil => rfl
      | cons a as => simp at h1
    subst hl
    rw [chunks9Aux_nil, chunks9Aux_nil]
  | succ n ih =>
    intro f₂ l h1 h2
    cases l with
    | nil => rw [chunks9Aux_nil, chunks9Aux_nil]
    | cons a as =>
      cases f₂ with
      | zero => simp at h2
      | succ m =>
        simp only [chunks9Aux, if_neg (List.cons_ne_nil a as)]
        congr 1
        apply ih
        · rw [List.length_drop]
          simp only [List.length_cons] at h1 ⊢
          omega
        · rw [List.length_drop]
          simp only [List.length_cons] at h2 ⊢
          omega

theorem chunks9_eq (l : List Char) :
    chunks9 l = if l = [] then [] else l.take 9 :: chunks9 (l.drop 9) := by
  cases l with
  | nil => rfl
  | cons a as =>
    rw [if_neg (List.cons_ne_nil a as)]
    show chunks9Aux (a :: as).length (a :: as) = _
    simp only [List.length_cons, chunks9Aux, if_neg (List.cons_ne_nil a as)]
    congr 1
    apply chunks9Aux_congr
    · rw [List.length_drop]; simp only [List.length_cons]; omega
    · exact le_rfl

theorem specChunks_eq_chunks9 (l : List Char) : specChunks l = chunks9 l := by
  have H : ∀ (n : Nat) (l : List Char), l.length ≤ n →
      specChunks l = chunks9 l := by
    intro n
    induction n with
    | zero =>
      intro l h
      have hl : l = [] := by cases l with
        | nil => rfl
        | cons a as => simp at h
      subst hl
      rfl
    | succ n ih =>
      intro l h
      cases l with
      | nil => rfl
      | cons a as =>
        rw [chunks9_eq, if_neg (List.cons_ne_nil a as)]
        rw [← ih ((a :: as).drop 9)
          (by rw [List.length_drop]; simp only [List.length_cons] at h ⊢; omega)]
        unfold specChunks
        have hlen : ((a :: as).length + 8) / 9 =
            (((a :: as).drop 9).length + 8) / 9 + 1 := by
          rw [List.length_drop]
          simp only [List.length_cons]
          omega
        rw [hlen, List.range_succ_eq_map, List.map_cons, List.map_map]
        congr 1
        apply List.map_congr_left
        intro i _
        simp only [Function.comp_apply, List.drop_drop, List.drop_succ_cons]
        have h9 : 9 * (i + 1) = (8 + 9 * i) + 1 := by omega
        rw [h9, List.drop_succ_cons]
  exact H l.length l le_rfl

theorem mem_chunks9_nonempty {l : List Char} {c : List Char}
    (hc : c ∈ chunks9 l) : c ≠ [] := by
  rw [← specChunks_eq_chunks9] at hc
  unfold specChunks at hc
  rw [List.mem_map] at hc
  obtain ⟨i, hi, rfl⟩ := hc
  rw [List.mem_range] at hi
  intro hnil
  have h9 : 9 * i < l.length := by omega
  have : (l.drop (9 * i)).length ≠ 0 := by
    rw [List.length_drop]; omega
  have htl : ((l.drop (9 * i)).take 9).length = 0 := by rw [hnil]; rfl
  rw [List.length_take] at htl
  omega

theorem mem_chunks9_subset {l c : List Char} (hc : c ∈ chunks9 l) :
    ∀ x ∈ c, x ∈ l := by
  rw [← specChunks_eq_chunks9] at hc
  unfold specChunks at hc
  rw [List.mem_map] at hc
  obtain ⟨i, _, rfl⟩ := hc
  intro x hx
  exact List.mem_of_mem_drop (List.mem_of_mem_take hx)

theorem isPyWS_false_of_isNd {c : Char} (h : isNd c = true) :
    isPyWS c = false := by
  by_contra hws
  rw [Bool.not_eq_false] at hws
  unfold isPyWS at hws
  unfold isNd at h
  rw [List.any_eq_true] at h hws
  obtain ⟨s, hs, hr⟩ := h
  obtain ⟨w, hw, hcw⟩ := hws
  have hcw2 : c.toNat = w := by simpa using hcw
  rw [Bool.and_eq_true, decide_eq_true_eq, decide_eq_true_eq] at hr
  have key : wsVals.all
      (fun w => ndStarts.all fun s => !(decide (s ≤ w) && decide (w < s + 10)))
        = true := by decide
  rw [List.all_eq_true] at key
  have k2 := key w hw
  rw [List.all_eq_true] at k2
  have k3 := k2 s hs
  simp only [Bool.not_eq_true', Bool.and_eq_false_iff, decide_eq_false_iff_not]
    at k3
  rcases k3 with k | k <;> omega

theorem parseDigitsTail_all_nd :
    ∀ (l : List Char) (acc : Nat), l.all isNd = true →
      parseDigitsTail acc l =
        some (l.foldl (fun a c => 10 * a + ndVal c) acc) := by
  intro l
  induction l with
  | nil => intro acc _; rfl
  | cons c cs ih =>
    intro acc h
    rw [List.all_cons, Bool.and_eq_true] at h
    rw [parseDigitsTail.eq_def]
    simp only []
    rw [if_pos h.1, ih _ h.2]
    rfl

theorem parseDigits_all_nd {l : List Char} (h : l.all isNd = true)
    (hne : l ≠ []) : parseDigits l = some (digitsVal l) := by
  cases l with
  | nil => exact absurd rfl hne
  | cons c cs =>
    rw [List.all_cons, Bool.and_eq_true] at h
    simp only [parseDigits, if_pos h.1]
    rw [parseDigitsTail_all_nd _ _ h.2]
    simp [digitsVal, List.foldl_cons]

theorem dropWhile_isPyWS_all_nd {l : List Char} (h : l.all isNd = true) :
    l.dropWhile isPyWS = l := by
  cases l with
  | nil => rfl
  | cons c cs =>
    rw [List.all_cons, Bool.and_eq_true] at h
    rw [List.dropWhile_cons, isPyWS_false_of_isNd h.1]
    simp

theorem pyIntSign_all_nd {l : List Char} (h : l.all isNd = true)
    (hne : l ≠ []) : pyIntSign l = some (Int.ofNat (digitsVal l)) := by
  cases l with
  | nil => exact absurd rfl hne
  | cons c cs =>
    have hc : isNd c = true := by
      rw [List.all_cons, Bool.and_eq_true] at h
      exact h.1
    have hplus : ¬(c = '+') := by
      intro he; rw [he] at hc; exact absurd hc (by decide)
    have hminus : ¬(c = '-') := by
      intro he; rw [he] at hc; exact absurd hc (by decide)
    simp only [pyIntSign, if_neg hplus, if_neg hminus]
    rw [parseDigits_all_nd h hne]
    rfl

theorem pyIntList_all_nd {l : List Char} (h : l.all isNd = true)
    (hne : l ≠ []) : pyIntList l = some (Int.ofNat (digitsVal l)) := by
  unfold pyIntList
  rw [dropWhile_isPyWS_all_nd h]
  rw [dropWhile_isPyWS_all_nd (by rw [List.all_reverse]; exact h),
    List.reverse_reverse]
  exact pyIntSign_all_nd h hne

theorem pyIntList_all_nd_newline {d : List Char} (h : d.all isNd = true)
    (hne : d ≠ []) : pyIntList (d ++ ['\n']) = some (Int.ofNat (digitsVal d)) := by
  unfold pyIntList
  have h1 : (d ++ ['\n']).dropWhile isPyWS = d ++ ['\n'] := by
    cases d with
    | nil => exact absurd rfl hne
    | cons c cs =>
      have hc : isNd c = true := by
        rw [List.all_cons, Bool.and_eq_true] at h
        exact h.1
      rw [List.cons_append, List.dropWhile_cons, isPyWS_false_of_isNd hc]
      simp
  rw [h1]
  have h2 : (d ++ ['\n']).reverse = '\n' :: d.reverse := by simp
  rw [h2, List.dropWhile_cons]
  simp only [show isPyWS '\n' = true from by decide, if_true]
  rw [dropWhile_isPyWS_all_nd (by rw [List.all_reverse]; exact h),
    List.reverse_reverse]
  exact pyIntSign_all_nd h hne

theorem reMatch_eq_specMatch (l : List Char) :
    reMatchAllDigits l = specMatchPy l := by
  induction l using List.reverseRecOn with
  | nil => rfl
  | append_singleton xs x _ =>
    simp only [reMatchAllDigits, specMatchPy, List.getLast?_concat,
      List.dropLast_concat, List.all_append, List.all_cons, List.all_nil,
      Option.all_some]
    cases hxs : xs.all isNd <;> cases hnd : isNd x <;>
      by_cases hc : x = '\n' <;> simp [hc]

theorem mapOpt_congr {α β : Type} {f g : α → Option β} :
    ∀ {l : List α}, (∀ a ∈ l, f a = g a) → mapOpt f l = mapOpt g l := by
  intro l
  induction l with
  | nil => intro _; rfl
  | cons x xs ih =>
    intro h
    simp only [mapOpt]
    rw [h x (List.mem_cons_self x xs), ih fun a ha => h a (List.mem_cons_of_mem x ha)]

theorem mapOpt_eq_none_iff {α β : Type} {f : α → Option β} :
    ∀ {l : List α}, mapOpt f l = none ↔ ∃ a ∈ l, f a = none := by
  intro l
  induction l with
  | nil => simp [mapOpt]
  | cons x xs ih =>
    simp only [mapOpt]
    cases hf : f x with
    | none => simp [hf]
    | some y =>
      simp only [Option.map_eq_none', ih, List.mem_cons]
      constructor
      · rintro ⟨a, ha, hn⟩; exact ⟨a, Or.inr ha, hn⟩
      · rintro ⟨a, ha | ha, hn⟩
        · rw [ha, hf] at hn; cases hn
        · exact ⟨a, ha, hn⟩

theorem specMatch_decomp {l : List Char} (h : specMatchPy l = true) :
    ∃ d t, l = d ++ t ∧ d.all isNd = true ∧ (t = [] ∨ t = ['\n']) := by
  unfold specMatchPy at h
  rw [Bool.and_eq_true] at h
  cases hl : l.getLast? with
  | none =>
    have : l = [] := List.getLast?_eq_none_iff.mp hl
    exact ⟨[], [], by simp [this], rfl, Or.inl rfl⟩
  | some x =>
    have hne : l ≠ [] := by
      intro h0
      rw [h0] at hl
      simp at hl
    have hx : x = l.getLast hne := by
      have := List.getLast?_eq_getLast l hne
      rw [hl] at this
      exact (Option.some_injective _ this)
    have hsplit : l.dropLast ++ [x] = l := by
      rw [hx]; exact List.dropLast_append_getLast hne
    rw [hl, Option.all_some, Bool.or_eq_true] at h
    rcases h.2 with hxnd | hxn
    · refine ⟨l, [], by simp, ?_, Or.inl rfl⟩
      rw [← hsplit, List.all_append, List.all_cons, List.all_nil]
      simp [h.1, hxnd]
    · rw [decide_eq_true_eq] at hxn
      refine ⟨l.dropLast, ['\n'], ?_, h.1, Or.inr rfl⟩
      rw [← hxn]
      exact hsplit.symm

theorem chunks9_shape :
    ∀ (n : Nat) (d t : List Char), d.length ≤ n → d.all isNd = true →
      (t = [] ∨ t = ['\n']) → ∀ c ∈ chunks9 (d ++ t),
        (c ≠ [] ∧ c.all isNd = true) ∨
          ∃ d2, c = d2 ++ ['\n'] ∧ d2.all isNd = true := by
  intro n
  induction n with
  | zero =>
    intro d t hlen _ ht c hc
    have hd : d = [] := by
      cases d with
      | nil => rfl
      | cons a as => simp at hlen
    subst hd
    rcases ht with rfl | rfl
    · simp [chunks9, chunks9Aux] at hc
    · have : chunks9 ([] ++ ['\n']) = [['\n']] := by decide
      rw [this] at hc
      rw [List.mem_singleton] at hc
      subst hc
      exact Or.inr ⟨[], rfl, rfl⟩
  | succ n ih =>
    intro d t hlen hall ht c hc
    by_cases hbig : 9 ≤ d.length
    · have hdne : d ++ t ≠ [] := by
        intro h0
        have hlen0 := congrArg List.length h0
        rw [List.length_append] at hlen0
        simp only [List.length_nil] at hlen0
        omega
      rw [chunks9_eq, if_neg hdne] at hc
      rcases List.mem_cons.mp hc with rfl | hc2
      · left
        have h90 : 9 - d.length = 0 := by omega
        rw [List.take_append_eq_append_take, h90, List.take_zero,
          List.append_nil]
        constructor
        · intro h0
          have hlen0 := congrArg List.length h0
          rw [List.length_take] at hlen0
          simp only [List.length_nil] at hlen0
          omega
        · rw [List.all_eq_true]
          intro x hx
          exact (List.all_eq_true.mp hall) x (List.mem_of_mem_take hx)
      · rw [List.drop_append_eq_append_drop,
          show 9 - d.length = 0 by omega, List.drop_zero] at hc2
        refine ih (d.drop 9) t ?_ ?_ ht c hc2
        · rw [List.length_drop]
          omega
        · rw [List.all_eq_true]
          intro x hx
          exact (List.all_eq_true.mp hall) x (List.mem_of_mem_drop hx)
    · have htlen : (d ++ t).length ≤ 9 := by
        rcases ht with rfl | rfl <;> simp <;> omega
      by_cases hnil : d ++ t = []
      · rw [chunks9_eq, if_pos hnil] at hc
        cases hc
      · rw [chunks9_eq, if_neg hnil] at hc
        rcases List.mem_cons.mp hc with rfl | hc2
        · rw [List.take_of_length_le htlen]
          rcases ht with rfl | rfl
          · left
            rw [List.append_nil]
            refine ⟨?_, hall⟩
            intro h0
            exact hnil (by rw [h0]; rfl)
          · exact Or.inr ⟨d, rfl, hall⟩
        · rw [List.drop_eq_nil_of_le htlen] at hc2
          simp [chunks9, chunks9Aux] at hc2

theorem pyChunkVal_eq_spec {c : List Char}
    (h : (c ≠ [] ∧ c.all isNd = true) ∨
      ∃ d2, c = d2 ++ ['\n'] ∧ d2.all isNd = true) :
    pyChunkVal c = specChunkVal c := by
  rcases h with ⟨hne, hall⟩ | ⟨d2, rfl, hall⟩
  · unfold pyChunkVal specChunkVal
    rw [pyIntList_all_nd hall hne]
    have hlast : ¬(c.getLast? = some '\n') := by
      intro hl
      have hmem : '\n' ∈ c := by
        have hne2 := hne
        have := List.getLast?_eq_getLast c hne2
        rw [hl] at this
        have hx : '\n' = c.getLast hne2 := Option.some_injective _ this
        rw [hx]
        exact List.getLast_mem hne2
      have := (List.all_eq_true.mp hall) '\n' hmem
      exact absurd this (by decide)
    rw [if_neg hlast]
    rw [if_neg (by simpa [List.isEmpty_iff] using hne), if_pos hall]
    simp [Int.toNat_ofNat]
  · by_cases hd : d2 = []
    · subst hd; decide
    · unfold pyChunkVal specChunkVal
      rw [pyIntList_all_nd_newline hall hd]
      rw [List.getLast?_concat, if_pos rfl, List.dropLast_concat]
      rw [if_neg (by simpa [List.isEmpty_iff] using hd), if_pos hall]
      simp [Int.toNat_ofNat]

theorem foldl_hex_eq_join (l : List Char) :
    l.foldl (fun acc c => acc ++ toHexLower c.toNat) "" =
      String.join (l.map fun c => toHexLower c.toNat) := by
  have H : ∀ (l : List Char) (init : String),
      l.foldl (fun acc c => acc ++ toHexLower c.toNat) init =
        init ++ String.join (l.map fun c => toHexLower c.toNat) := by
    intro l
    induction l with
    | nil => intro init; simp [String.join]
    | cons c cs ih =>
      intro init
      rw [List.foldl_cons, ih, List.map_cons, String_join_cons,
        String.append_assoc]
  rw [H]
  simp

theorem mem_of_getLast?_eq {α : Type} {l : List α} {x : α}
    (h : l.getLast? = some x) : x ∈ l := by
  have hne : l ≠ [] := by
    intro h0
    rw [h0] at h
    simp at h
  have h2 := List.getLast?_eq_getLast l hne
  rw [h] at h2
  rw [Option.some_injective _ h2]
  exact List.getLast_mem hne

theorem mapOpt_chunks_newline :
    ∀ (n : Nat) (d : List Char), d.length ≤ n → d.all isNd = true →
      (mapOpt pyChunkVal (chunks9 (d ++ ['\n'])) = none ↔ d.length % 9 = 0) := by
  intro n
  induction n with
  | zero =>
    intro d hlen _
    have hd : d = [] := by
      cases d with
      | nil => rfl
      | cons a as => simp at hlen
    subst hd
    exact ⟨fun _ => rfl, fun _ => by decide⟩
  | succ n ih =>
    intro d hlen hall
    by_cases hbig : 9 ≤ d.length
    · have hdne : d ++ ['\n'] ≠ [] := by
        intro h0
        have hlen0 := congrArg List.length h0
        rw [List.length_append] at hlen0
        simp at hlen0
      rw [chunks9_eq, if_neg hdne]
      have htake : (d ++ ['\n']).take 9 = d.take 9 := by
        rw [List.take_append_eq_append_take, show 9 - d.length = 0 by omega,
          List.take_zero, List.append_nil]
      have hdrop : (d ++ ['\n']).drop 9 = d.drop 9 ++ ['\n'] := by
        rw [List.drop_append_eq_append_drop, show 9 - d.length = 0 by omega,
          List.drop_zero]
      rw [htake, hdrop]
      have htne : d.take 9 ≠ [] := by
        intro h0
        have hlen0 := congrArg List.length h0
        rw [List.length_take] at hlen0
        simp only [List.length_nil] at hlen0
        omega
      have htall : (d.take 9).all isNd = true := by
        rw [List.all_eq_true]
        intro x hx
        exact (List.all_eq_true.mp hall) x (List.mem_of_mem_take hx)
      have hval := pyIntList_all_nd htall htne
      simp only [mapOpt, pyChunkVal, hval, Option.map_some', Option.map_eq_none']
      rw [ih (d.drop 9) (by rw [List.length_drop]; omega)
        (by rw [List.all_eq_true]
            intro x hx
            exact (List.all_eq_true.mp hall) x (List.mem_of_mem_drop hx))]
      rw [List.length_drop]
      omega
    · by_cases hd : d = []
      · subst hd
        exact ⟨fun _ => rfl, fun _ => by decide⟩
      · have hdne : d ++ ['\n'] ≠ [] := by
          intro h0
          have hlen0 := congrArg List.length h0
          rw [List.length_append] at hlen0
          simp at hlen0
        have hlen9 : (d ++ ['\n']).length ≤ 9 := by
          rw [List.length_append]
          simp only [List.length_cons, List.length_nil]
          omega
        rw [chunks9_eq, if_neg hdne, List.take_of_length_le hlen9,
          List.drop_eq_nil_of_le hlen9]
        have hval := pyIntList_all_nd_newline hall hd
        simp only [mapOpt, pyChunkVal, hval, Option.map_some', chunks9,
          chunks9Aux, List.length_nil]
        constructor
        · intro h0; cases h0
        · intro h9
          exfalso
          have : 1 ≤ d.length := by
            cases d with
            | nil => exact absurd rfl hd
            | cons a as => simp
          omega

/-- C2 counterexample: the string `"123\n"` does not consist of ASCII decimal
digits, yet `transform_id` takes the numeric path — Python's `^\d*$` matches
before the trailing newline and `int("123\n")` strips it — returning mode
`"3"` with segment `"7b"` rather than mode `"4"` with the code-point segment
the claim requires. -/
theorem C2_transform_id_counterexample :
    transform_id "123\n" = some ("3", ["7b"]) ∧
      ("123\n".toList.all Char.isDigit) = false :=
  ⟨by decide, by decide⟩

/-- C2 (amended): `transform_id` returns mode `"3"` with the 9-character
chunks passed through `int()` (Unicode decimal digit values, one trailing
newline stripped; a chunk holding only the newline raises) if and only if
`book_id` matches Python's `^\d*$` — every character a Unicode decimal digit
(category `Nd`), allowing a single trailing newline; otherwise it returns
mode `"4"` with one segment concatenating the lowercase-hex code points. -/
theorem C2_transform_id_amended (book_id : String) :
    transform_id book_id = transformIdSpec book_id := by
  unfold transform_id transformIdSpec
  rw [reMatch_eq_specMatch]
  by_cases hm : specMatchPy book_id.toList = true
  · rw [if_pos hm, if_pos hm, specChunks_eq_chunks9]
    obtain ⟨d, t, heq, hall, ht⟩ := specMatch_decomp hm
    congr 1
    apply mapOpt_congr
    intro c hc
    apply pyChunkVal_eq_spec
    rw [heq] at hc
    exact chunks9_shape d.length d t le_rfl hall ht c hc
  · rw [if_neg hm, if_neg hm, foldl_hex_eq_join]

/-- C7 counterexample: on the input `"\n"` the function raises
(`int("\n")` raises `ValueError` inside `transform_id`) instead of
producing an output, so it is not total. -/
theorem C7_calculate_book_str_id_counterexample :
    calculate_book_str_id (fun _ => "") "\n" = none := by decide

/-- C7 (amended): `calculate_book_str_id` is a pure function of its input
(deterministic by construction), and it terminates with an output for every
string except exactly those matching `^\d*$` whose final character is a
newline in a chunk of its own — i.e. `9·k` Unicode decimal digits followed
by one newline, where `int` raises `ValueError`. -/
theorem C7_calculate_book_str_id_totality (md5hex : String → String)
    (book_id : String) :
    calculate_book_str_id md5hex book_id = none ↔
      (book_id.toList.getLast? = some '\n' ∧
       book_id.toList.dropLast.all isNd = true ∧
       book_id.toList.length % 9 = 1) := by
  unfold calculate_book_str_id
  rw [Option.map_eq_none']
  unfold transform_id
  by_cases hm : reMatchAllDigits book_id.toList = true
  · rw [if_pos hm, Option.map_eq_none']
    have hm2 : specMatchPy book_id.toList = true := by
      rw [← reMatch_eq_specMatch]; exact hm
    obtain ⟨d, t, heq, hall, ht⟩ := specMatch_decomp hm2
    rw [heq]
    rcases ht with rfl | rfl
    · rw [List.append_nil]
      constructor
      · intro hnone
        exfalso
        rw [mapOpt_eq_none_iff] at hnone
        obtain ⟨c, hc, hcn⟩ := hnone
        rcases chunks9_shape d.length d [] le_rfl hall (Or.inl rfl) c
            (by rwa [List.append_nil]) with ⟨hne, hcall⟩ | ⟨d2, rfl, _⟩
        · rw [pyChunkVal, pyIntList_all_nd hcall hne] at hcn
          cases hcn
        · have hmem : '\n' ∈ d := mem_chunks9_subset hc '\n' (by simp)
          have := (List.all_eq_true.mp hall) '\n' hmem
          exact absurd this (by decide)
      · rintro ⟨hlast, -, -⟩
        exfalso
        have hmem : '\n' ∈ d := mem_of_getLast?_eq hlast
        have := (List.all_eq_true.mp hall) '\n' hmem
        exact absurd this (by decide)
    · rw [mapOpt_chunks_newline d.length d le_rfl hall,
        List.getLast?_concat, List.dropLast_concat, List.length_append]
      simp only [List.length_cons, List.length_nil]
      constructor
      · intro h9
        exact ⟨by simp, hall, by omega⟩
      · rintro ⟨-, -, h9⟩
        omega
  · rw [if_neg hm]
    constructor
    · intro h0; cases h0
    · rintro ⟨hlast, hdrop, -⟩
      exfalso
      apply hm
      rw [reMatch_eq_specMatch]
      unfold specMatchPy
      rw [hlast, hdrop, Option.all_some]
      simp

/-! ### JSON-like values and the review-list operation (claims C3 and C6)

Upstream review entries are arbitrary parsed-JSON dictionaries, so they are
modelled by an untyped value type `J`.  The review operations need dictionary
get / insert-or-replace and Python's `==` against an int literal. -/

/-- A parsed JSON value (floats do not occur in the payloads the client
reads, so numbers are integers). -/
inductive J where
  | null
  | b (v : Bool)
  | i (n : Int)
  | s (v : String)
  | arr (elems : List J)
  | obj (fields : List (String × J))

/-- Association-list update: replace the value in place when the key exists
(keeping its position, as a Python dict does), append otherwise. -/
def setAssoc {κ β : Type} [BEq κ] : List (κ × β) → κ → β → List (κ × β)
  | [], k, v => [(k, v)]
  | (k2, v2) :: rest, k, v =>
    if k2 == k then (k2, v) :: rest else (k2, v2) :: setAssoc rest k v

/-- Association-list lookup (dict keys are unique, so first match). -/
def lookupAssoc {κ β : Type} [BEq κ] (m : List (κ × β)) (k : κ) : Option β :=
  (m.find? fun p => p.1 == k).map fun p => p.2

/-- `d.get(k)` on a dict's field list (`None` when absent is `none`). -/
def jget (fields : List (String × J)) (k : String) : Option J :=
  lookupAssoc fields k

/-- `d.get(k, default)`: the default is used only when the key is absent. -/
def jgetD (fields : List (String × J)) (k : String) (dflt : J) : J :=
  (jget fields k).getD dflt

/-- `.get(k)` on a JSON value that may not be a dict (`none` otherwise). -/
def jobjGet (j : J) (k : String) : Option J :=
  match j with
  | .obj fields => jget fields k
  | _ => none

/-- Python `x == n` for a JSON value against an int literal
(`True == 1` and `False == 0` hold in Python; other types compare unequal). -/
def jEqInt (j : J) (n : Int) : Bool :=
  match j with
  | .i m => m == n
  | .b v => (if v then (1 : Int) else 0) == n
  | _ => false

/-- `list(filter(p, l))` when the predicate can raise. -/
def filterOpt {α : Type} (p : α → Option Bool) : List α → Option (List α)
  | [] => some []
  | x :: xs =>
    match p x with
    | none => none
    | some bv => (filterOpt p xs).map fun ys => if bv then x :: ys else ys

/-- `x.get("review", {}).get("type") == n` on one review entry; `none`
models the `AttributeError` when the entry, or a present review value, is
not a dict. -/
def reviewTypeIs (n : Int) (x : J) : Option Bool :=
  match x with
  | .obj xf =>
    match jgetD xf "review" (J.obj []) with
    | .obj rf =>
      some (match jget rf "type" with
        | some t => jEqInt t n
        | none => false)
    | _ => none
  | _ => none

/-- `x.get("review")` on a filtered entry (`None` for an absent key). -/
def extractReview (x : J) : Option J :=
  match x with
  | .obj xf => some (jgetD xf "review" J.null)
  | _ => none

/-- `{**x, "markText": x.pop("content")}` on one review dict.  The `**x`
unpacking is evaluated before the `pop`, so the new dict keeps the
`content` entry (the pop mutates only the old dict); `markText` is then
set.  `none` models the `KeyError` when `content` is absent and the
`AttributeError` when the value is not a dict. -/
def renameContent (x : J) : Option J :=
  match x with
  | .obj rf =>
    match jget rf "content" with
    | some v => some (J.obj (setAssoc rf "markText" v))
    | none => none
  | _ => none

/-- The parsed upstream response of `review/list`: HTTP success flag and
the `reviews` array (`.json().get("reviews", [])`). -/
structure ReviewResp where
  ok : Bool
  reviews : List J

/-- The straight-line body of `get_review_list` on a successful response:
two filters over the whole entry list, then the two maps over the normal
entries. -/
def reviewPipeline (reviews : List J) : Option (List J × List J) :=
  match filterOpt (reviewTypeIs 4) reviews with
  | none => none
  | some summary =>
    match filterOpt (reviewTypeIs 1) reviews with
    | none => none
    | some normals =>
      match mapOpt extractReview normals with
      | none => none
      | some revs1 =>
        match mapOpt renameContent revs1 with
        | none => none
        | some revs2 => some (summary, revs2)

/-- Translated from `WeReadClient.get_review_list` (client.py:141-166).
`none` models an uncaught exception. -/
def get_review_list (resp : ReviewResp) : Option (List J × List J) :=
  if resp.ok then reviewPipeline resp.reviews else some ([], [])

/-- Spec-side (amended C3) single-pass partition: a type-4 entry goes to the
summary list as-is; a type-1 entry contributes its review record with
`markText` added and `content` kept — the value is duplicated, not moved;
other types are dropped; a non-dict entry or review value, or a normal
review without `content`, raises. -/
def reviewPartitionSpec : List J → Option (List J × List J)
  | [] => some ([], [])
  | x :: xs =>
    match x with
    | .obj xf =>
      match jgetD xf "review" (J.obj []) with
      | .obj rf =>
        match reviewPartitionSpec xs with
        | none => none
        | some (sl, nl) =>
          if (match jget rf "type" with
              | some t => jEqInt t 4
              | none => false) then
            some (x :: sl, nl)
          else if (match jget rf "type" with
              | some t => jEqInt t 1
              | none => false) then
            match jget rf "content" with
            | some v => some (sl, J.obj (setAssoc rf "markText" v) :: nl)
            | none => none
          else some (sl, nl)
      | _ => none
    | _ => none

theorem jEqInt_four_not_one {t : J} (h : jEqInt t 4 = true) :
    jEqInt t 1 = false := by
  cases t with
  | i n =>
    simp only [jEqInt, beq_iff_eq] at h
    simp only [jEqInt, beq_eq_false_iff_ne, ne_eq]
    omega
  | b v => cases v <;> simp [jEqInt] at h
  | null => simp [jEqInt] at h
  | s v => simp [jEqInt] at h
  | arr l => simp [jEqInt] at h
  | obj f => simp [jEqInt] at h

theorem pipeline_cons_err (x : J) (xs : List J)
    (h : reviewTypeIs 4 x = none) : reviewPipeline (x :: xs) = none := by
  simp [reviewPipeline, filterOpt, h]

theorem pipeline_cons_sum {x : J} (xs : List J)
    (h4 : reviewTypeIs 4 x = some true) (h1 : reviewTypeIs 1 x = some false) :
    reviewPipeline (x :: xs) =
      (reviewPipeline xs).map fun p => (x :: p.1, p.2) := by
  simp only [reviewPipeline, filterOpt, h4, h1]
  cases hf4 : filterOpt (reviewTypeIs 4) xs with
  | none => simp
  | some l4 =>
    cases hf1 : filterOpt (reviewTypeIs 1) xs with
    | none => simp
    | some l1 =>
      simp only [Option.map_some', if_pos rfl, if_neg (by simp : ¬(false = true))]
      cases he : mapOpt extractReview l1 with
      | none => simp
      | some e1 =>
        cases hr : mapOpt renameContent e1 with
        | none => simp [hr]
        | some r2 => simp [hr]

theorem pipeline_cons_norm {x : J} (xs : List J) {r : J}
    (h4 : reviewTypeIs 4 x = some false) (h1 : reviewTypeIs 1 x = some true)
    (he : extractReview x = some r) :
    reviewPipeline (x :: xs) =
      match renameContent r with
      | none => none
      | some r2 => (reviewPipeline xs).map fun p => (p.1, r2 :: p.2) := by
  simp only [reviewPipeline, filterOpt, h4, h1]
  cases hf4 : filterOpt (reviewTypeIs 4) xs with
  | none => cases hrn : renameContent r <;> simp
  | some l4 =>
    cases hf1 : filterOpt (reviewTypeIs 1) xs with
    | none => cases hrn : renameContent r <;> simp
    | some l1 =>
      simp only [Option.map_some', if_pos rfl, if_neg (by simp : ¬(false = true)),
        mapOpt, he]
      cases hee : mapOpt extractReview l1 with
      | none => cases hrn : renameContent r <;> simp
      | some e1 =>
        simp only [Option.map_some', mapOpt]
        cases hrn : renameContent r with
        | none => simp
        | some r2 =>
          cases hrr : mapOpt renameContent e1 with
          | none => simp [hrr]
          | some rs => simp [hrr]

theorem pipeline_cons_skip {x : J} (xs : List J)
    (h4 : reviewTypeIs 4 x = some false) (h1 : reviewTypeIs 1 x = some false) :
    reviewPipeline (x :: xs) = reviewPipeline xs := by
  simp only [reviewPipeline, filterOpt, h4, h1]
  cases hf4 : filterOpt (reviewTypeIs 4) xs with
  | none => simp
  | some l4 =>
    cases hf1 : filterOpt (reviewTypeIs 1) xs with
    | none => simp
    | some l1 =>
      simp only [Option.map_some', if_neg (by simp : ¬(false = true))]

theorem reviewPipeline_eq_spec :
    ∀ reviews : List J, reviewPipeline reviews = reviewPartitionSpec reviews := by
  intro reviews
  induction reviews with
  | nil => rfl
  | cons x xs ih =>
    cases x with
    | null => simp [pipeline_cons_err J.null xs (by simp [reviewTypeIs]),
        reviewPartitionSpec]
    | b v => simp [pipeline_cons_err (J.b v) xs (by simp [reviewTypeIs]),
        reviewPartitionSpec]
    | i n => simp [pipeline_cons_err (J.i n) xs (by simp [reviewTypeIs]),
        reviewPartitionSpec]
    | s v => simp [pipeline_cons_err (J.s v) xs (by simp [reviewTypeIs]),
        reviewPartitionSpec]
    | arr l => simp [pipeline_cons_err (J.arr l) xs (by simp [reviewTypeIs]),
        reviewPartitionSpec]
    | obj xf =>
      cases hrv : jgetD xf "review" (J.obj []) with
      | null => simp [pipeline_cons_err (J.obj xf) xs (by simp [reviewTypeIs, hrv]),
          reviewPartitionSpec, hrv]
      | b v => simp [pipeline_cons_err (J.obj xf) xs (by simp [reviewTypeIs, hrv]),
          reviewPartitionSpec, hrv]
      | i n => simp [pipeline_cons_err (J.obj xf) xs (by simp [reviewTypeIs, hrv]),
          reviewPartitionSpec, hrv]
      | s v => simp [pipeline_cons_err (J.obj xf) xs (by simp [reviewTypeIs, hrv]),
          reviewPartitionSpec, hrv]
      | arr l => simp [pipeline_cons_err (J.obj xf) xs (by simp [reviewTypeIs, hrv]),
          reviewPartitionSpec, hrv]
      | obj rf =>
        cases hty : jget rf "type" with
        | none =>
          have hrt4 : reviewTypeIs 4 (J.obj xf) = some false := by
            simp [reviewTypeIs, hrv, hty]
          have hrt1 : reviewTypeIs 1 (J.obj xf) = some false := by
            simp [reviewTypeIs, hrv, hty]
          rw [pipeline_cons_skip xs hrt4 hrt1, ih]
          simp only [reviewPartitionSpec, hrv, hty]
          cases hspec : reviewPartitionSpec xs with
          | none => rfl
          | some p => rfl
        | some t =>
          by_cases h4 : jEqInt t 4 = true
          · have h1 : jEqInt t 1 = false := jEqInt_four_not_one h4
            have hrt4 : reviewTypeIs 4 (J.obj xf) = some true := by
              simp [reviewTypeIs, hrv, hty, h4]
            have hrt1 : reviewTypeIs 1 (J.obj xf) = some false := by
              simp [reviewTypeIs, hrv, hty, h1]
            rw [pipeline_cons_sum xs hrt4 hrt1, ih]
            simp only [reviewPartitionSpec, hrv, hty, h4, h1]
            cases hspec : reviewPartitionSpec xs with
            | none => rfl
            | some p => simp
          · rw [Bool.not_eq_true] at h4
            have hrt4 : reviewTypeIs 4 (J.obj xf) = some false := by
              simp [reviewTypeIs, hrv, hty, h4]
            by_cases h1 : jEqInt t 1 = true
            · have hrt1 : reviewTypeIs 1 (J.obj xf) = some true := by
                simp [reviewTypeIs, hrv, hty, h1]
              -- the review key must be present for the type to be 1
              cases hpres : jget xf "review" with
              | none =>
                exfalso
                rw [jgetD, hpres] at hrv
                simp only [Option.getD_none] at hrv
                have hrf : rf = ([] : List (String × J)) := by
                  cases hrv
                  rfl
                rw [hrf] at hty
                simp [jget, lookupAssoc] at hty
              | some r =>
                have hrobj : r = J.obj rf := by
                  rw [jgetD, hpres] at hrv
                  simpa using hrv
                have he : extractReview (J.obj xf) = some (J.obj rf) := by
                  rw [extractReview, jgetD, hpres, Option.getD_some, hrobj]
                rw [pipeline_cons_norm xs hrt4 hrt1 he, ih]
                simp only [reviewPartitionSpec, hrv, hty, h4, h1]
                cases hc : jget rf "content" with
                | none =>
                  simp only [renameContent, hc]
                  cases hspec : reviewPartitionSpec xs with
                  | none => rfl
                  | some p => rfl
                | some v =>
                  simp only [renameContent, hc]
                  cases hspec : reviewPartitionSpec xs with
                  | none => rfl
                  | some p => simp
            · rw [Bool.not_eq_true] at h1
              have hrt1 : reviewTypeIs 1 (J.obj xf) = some false := by
                simp [reviewTypeIs, hrv, hty, h1]
              rw [pipeline_cons_skip xs hrt4 hrt1, ih]
              simp only [reviewPartitionSpec, hrv, hty, h4, h1]
              cases hspec : reviewPartitionSpec xs with
              | none => rfl
              | some p => simp

/-- C3 (amended): `get_review_list` equals the single-pass partition that
keeps type-4 entries as the summary list, drops types outside {1, 4}, and
maps each type-1 entry to its review record with `markText` set to the
`content` value while the `content` field remains in the record — the
field is duplicated, not moved.  On a non-success response both lists are
empty. -/
theorem C3_get_review_list_amended (resp : ReviewResp) :
    get_review_list resp =
      if resp.ok then reviewPartitionSpec resp.reviews else some ([], []) := by
  unfold get_review_list
  cases resp.ok with
  | false => rfl
  | true => simp [reviewPipeline_eq_spec]

/-- The concrete response used to refute C3 as stated: one normal review
with a `content` field. -/
def respC3 : ReviewResp :=
  ⟨true, [J.obj [("review", J.obj [("type", J.i 1), ("content", J.s "hi")])]]⟩

/-- The record `get_review_list` actually produces for `respC3`'s single
normal review. -/
def reviewOutC3 : J :=
  J.obj [("type", J.i 1), ("content", J.s "hi"), ("markText", J.s "hi")]

/-- C3 counterexample: the claim says every normal-review record has
`markText` and **no** `content` field (moved, not duplicated).  In fact the
`{**x, "markText": x.pop("content")}` display unpacks `x` before the `pop`
mutates it, so the output record keeps `content` alongside `markText`. -/
theorem C3_get_review_list_counterexample :
    get_review_list respC3 = some ([], [reviewOutC3]) ∧
      jobjGet reviewOutC3 "content" = some (J.s "hi") ∧
      jobjGet reviewOutC3 "markText" = some (J.s "hi") :=
  ⟨rfl, rfl, rfl⟩

theorem filterOpt_some {α : Type} (p : α → Option Bool) :
    ∀ (l : List α), (∀ x ∈ l, p x ≠ none) →
      ∃ out, filterOpt p l = some out ∧ ∀ y ∈ out, y ∈ l ∧ p y = some true := by
  intro l
  induction l with
  | nil => intro _; exact ⟨[], rfl, by simp⟩
  | cons x xs ih =>
    intro h
    obtain ⟨out, hout, hmem⟩ := ih fun a ha => h a (List.mem_cons_of_mem x ha)
    cases hpx : p x with
    | none => exact absurd hpx (h x (List.mem_cons_self x xs))
    | some bv =>
      cases bv with
      | true =>
        refine ⟨x :: out, by simp [filterOpt, hpx, hout], ?_⟩
        intro y hy
        rcases List.mem_cons.mp hy with rfl | hy2
        · exact ⟨List.mem_cons_self y xs, hpx⟩
        · exact ⟨List.mem_cons_of_mem x (hmem y hy2).1, (hmem y hy2).2⟩
      | false =>
        refine ⟨out, by simp [filterOpt, hpx, hout], ?_⟩
        intro y hy
        exact ⟨List.mem_cons_of_mem x (hmem y hy).1, (hmem y hy).2⟩

theorem mapOpt_some {α β : Type} (f : α → Option β) :
    ∀ (l : List α), (∀ x ∈ l, f x ≠ none) →
      ∃ out, mapOpt f l = some out ∧ ∀ y ∈ out, ∃ x ∈ l, f x = some y := by
  intro l
  induction l with
  | nil => intro _; exact ⟨[], rfl, by simp⟩
  | cons x xs ih =>
    intro h
    obtain ⟨out, hout, hmem⟩ := ih fun a ha => h a (List.mem_cons_of_mem x ha)
    cases hfx : f x with
    | none => exact absurd hfx (h x (List.mem_cons_self x xs))
    | some y =>
      refine ⟨y :: out, by simp [mapOpt, hfx, hout], ?_⟩
      intro z hz
      rcases List.mem_cons.mp hz with rfl | hz2
      · exact ⟨x, List.mem_cons_self x xs, hfx⟩
      · obtain ⟨a, ha, hfa⟩ := hmem z hz2
        exact ⟨a, List.mem_cons_of_mem x ha, hfa⟩

/-- Well-formedness of one upstream review entry, under which
`get_review_list` cannot raise: the entry is a dict, its review value (when
present) is a dict, and a type-1 review carries a `content` field. -/
def reviewEntryOkB (x : J) : Bool :=
  match x with
  | .obj xf =>
    match jgetD xf "review" (J.obj []) with
    | .obj rf =>
      !(match jget rf "type" with
        | some t => jEqInt t 1
        | none => false) || (jget rf "content").isSome
    | _ => false
  | _ => false

theorem reviewTypeIs_ne_none_of_ok {x : J} (h : reviewEntryOkB x = true)
    (n : Int) : reviewTypeIs n x ≠ none := by
  cases x with
  | obj xf =>
    cases hrv : jgetD xf "review" (J.obj []) with
    | obj rf => simp [reviewTypeIs, hrv]
    | null => simp [reviewEntryOkB, hrv] at h
    | b v => simp [reviewEntryOkB, hrv] at h
    | i n2 => simp [reviewEntryOkB, hrv] at h
    | s v => simp [reviewEntryOkB, hrv] at h
    | arr l => simp [reviewEntryOkB, hrv] at h
  | null => simp [reviewEntryOkB] at h
  | b v => simp [reviewEntryOkB] at h
  | i n2 => simp [reviewEntryOkB] at h
  | s v => simp [reviewEntryOkB] at h
  | arr l => simp [reviewEntryOkB] at h

theorem extractReview_ne_none_of_ok {x : J} (h : reviewEntryOkB x = true) :
    extractReview x ≠ none := by
  cases x with
  | obj xf => simp [extractReview]
  | null => simp [reviewEntryOkB] at h
  | b v => simp [reviewEntryOkB] at h
  | i n2 => simp [reviewEntryOkB] at h
  | s v => simp [reviewEntryOkB] at h
  | arr l => simp [reviewEntryOkB] at h

/-- The concrete response used to refute C6 as stated: a success response
holding one type-1 review without a `content` field. -/
def respC6 : ReviewResp := ⟨true, [J.obj [("review", J.obj [("type", J.i 1)])]]⟩

/-- C6 counterexample: the claim says `get_review_list` never raises, but on
a success response holding a type-1 review without `content`,
`x.pop("content")` raises `KeyError` (modelled by `none`) instead of
returning a pair of sequences. -/
theorem C6_get_review_list_counterexample : get_review_list respC6 = none := rfl

/-- C6 (amended): on every non-success response `get_review_list` returns
the pair of empty lists; on a success response whose entries are well-formed
(dict entries, dict review values, `content` present on type-1 reviews) it
returns a pair and does not raise; the `KeyError` of the counterexample is
the only failure mode beyond non-dict entries or review values. -/
theorem C6_get_review_list_amended (resp : ReviewResp) :
    (resp.ok = false → get_review_list resp = some ([], [])) ∧
    (resp.ok = true → (∀ x ∈ resp.reviews, reviewEntryOkB x = true) →
      (get_review_list resp).isSome = true) := by
  constructor
  · intro h
    simp [get_review_list, h]
  · intro hok hwf
    rw [get_review_list, hok, if_pos rfl]
    obtain ⟨l4, hl4, -⟩ := filterOpt_some (reviewTypeIs 4) resp.reviews
      fun x hx => reviewTypeIs_ne_none_of_ok (hwf x hx) 4
    obtain ⟨l1, hl1, hmem1⟩ := filterOpt_some (reviewTypeIs 1) resp.reviews
      fun x hx => reviewTypeIs_ne_none_of_ok (hwf x hx) 1
    obtain ⟨e1, he1, hmeme⟩ := mapOpt_some extractReview l1
      fun x hx => extractReview_ne_none_of_ok (hwf x (hmem1 x hx).1)
    have hren : ∀ r ∈ e1, renameContent r ≠ none := by
      intro r hr
      obtain ⟨x, hxl1, hfx⟩ := hmeme r hr
      have hx0 := (hmem1 x hxl1).1
      have htrue := (hmem1 x hxl1).2
      have hok2 := hwf x hx0
      cases x with
      | obj xf =>
        cases hrv : jgetD xf "review" (J.obj []) with
        | obj rf =>
          have ht1 : (match jget rf "type" with
              | some t => jEqInt t 1
              | none => false) = true := by
            simp only [reviewTypeIs, hrv, Option.some_inj] at htrue
            exact htrue
          cases hpres : jget xf "review" with
          | none =>
            exfalso
            rw [jgetD, hpres] at hrv
            simp only [Option.getD_none] at hrv
            have hrf : rf = ([] : List (String × J)) := by
              cases hrv
              rfl
            rw [hrf] at ht1
            simp [jget, lookupAssoc] at ht1
          | some rv0 =>
            have hrv0 : rv0 = J.obj rf := by
              rw [jgetD, hpres] at hrv
              simpa using hrv
            have hr2 : r = J.obj rf := by
              rw [extractReview, jgetD, hpres, Option.getD_some, hrv0] at hfx
              exact (Option.some_inj.mp hfx).symm
            have hcont : (jget rf "content").isSome = true := by
              simp only [reviewEntryOkB, hrv, ht1, Bool.not_true,
                Bool.false_or] at hok2
              exact hok2
            rw [hr2, renameContent]
            cases hcg : jget rf "content" with
            | none => rw [hcg] at hcont; cases hcont
            | some v => simp [hcg]
        | null => simp [reviewEntryOkB, hrv] at hok2
        | b v => simp [reviewEntryOkB, hrv] at hok2
        | i n2 => simp [reviewEntryOkB, hrv] at hok2
        | s v => simp [reviewEntryOkB, hrv] at hok2
        | arr l => simp [reviewEntryOkB, hrv] at hok2
      | null => simp [reviewEntryOkB] at hok2
      | b v => simp [reviewEntryOkB] at hok2
      | i n2 => simp [reviewEntryOkB] at hok2
      | s v => simp [reviewEntryOkB] at hok2
      | arr l => simp [reviewEntryOkB] at hok2
    obtain ⟨r2, hr2, -⟩ := mapOpt_some renameContent e1 hren
    simp [reviewPipeline, hl4, hl1, he1, hr2]

/-- C6 witness: a success response with one well-formed normal review. -/
theorem C6_get_review_list_witness :
    (get_review_list ⟨true, [J.obj [("review",
      J.obj [("type", J.i 1), ("content", J.s "x")])]]⟩).isSome = true :=
  (C6_get_review_list_amended _).2 rfl (by
    intro x hx
    rw [List.mem_singleton] at hx
    rw [hx]
    rfl)

/-! ### Bookmarks, notebooks, chapters, book info, construction
(claims C4, C5, C8, C9, C10)

These operations read only a handful of typed fields, so their upstream
payloads are modelled as records with `Option` fields (`none` = key absent);
`tag` is the opaque rest of a record, carried through untouched. -/

/-- Outcome of a Python call: a value, or an uncaught exception. -/
inductive PyResult (α : Type) where
  | val (a : α)
  | exn
deriving DecidableEq

/-- One entry of the upstream `updated` bookmark list. -/
structure BookmarkEntry where
  chapterUid : Option Int
  range : Option String
  tag : Nat
deriving DecidableEq

/-- The parsed upstream response of `book/bookmarklist`. -/
structure BookmarkResp where
  ok : Bool
  updated : List BookmarkEntry
deriving DecidableEq

/-- `int(x.get("range", "0-0").split("-")[0] or 0)`: the prefix before the
first `-` of the range (default `"0-0"`); an empty prefix is falsy and
becomes `int(0)`; a non-empty prefix goes through `int()` and may raise
`ValueError` (`none`). -/
def rangeStart (b : BookmarkEntry) : Option Int :=
  let pre := (b.range.getD "0-0").toList.takeWhile fun c => c ≠ '-'
  if pre.isEmpty then some 0 else pyIntList pre

/-- The sort key `(x.get("chapterUid", 1), range start)` of one entry. -/
def bmKey (b : BookmarkEntry) : Option (Int × Int) :=
  (rangeStart b).map fun st => (b.chapterUid.getD 1, st)

/-- The sort key with the defaults that apply when it is computable
(used only to state sortedness of outputs). -/
def bmKeyD (b : BookmarkEntry) : Int × Int := (bmKey b).getD (1, 0)

/-- Python tuple `<=` on the two-component sort keys. -/
def keyLe (p q : Int × Int) : Prop := p.1 < q.1 ∨ (p.1 = q.1 ∧ p.2 ≤ q.2)

instance : DecidableRel keyLe := fun p q => by
  unfold keyLe
  infer_instance

/-- Key order lifted to decorated (key, entry) pairs. -/
def bmPairLe (a b : (Int × Int) × BookmarkEntry) : Prop := keyLe a.1 b.1

instance : DecidableRel bmPairLe := fun a b => by
  unfold bmPairLe
  infer_instance

instance : IsTotal ((Int × Int) × BookmarkEntry) bmPairLe :=
  ⟨by intro a b; unfold bmPairLe keyLe; omega⟩

instance : IsTrans ((Int × Int) × BookmarkEntry) bmPairLe :=
  ⟨by intro a b c; unfold bmPairLe keyLe; omega⟩

/-- Translated from `WeReadClient.get_bookmark_list` (client.py:74-94):
on success the `updated` entries are decorated with their sort keys (Python
`sorted` evaluates the key function once per element, raising on the first
failure) and stably sorted by them; `.exn` models the raised `ValueError`. -/
def get_bookmark_list (resp : BookmarkResp) :
    PyResult (Option (List BookmarkEntry)) :=
  if resp.ok then
    match mapOpt (fun b => (bmKey b).map fun k => (k, b)) resp.updated with
    | none => PyResult.exn
    | some keyed =>
      PyResult.val (some ((List.insertionSort bmPairLe keyed).map fun p => p.2))
  else PyResult.val none

theorem mapOpt_eq_map {α β : Type} (f : α → Option β) (g : α → β) :
    ∀ l : List α, (∀ a ∈ l, f a = some (g a)) → mapOpt f l = some (l.map g) := by
  intro l
  induction l with
  | nil => intro _; rfl
  | cons x xs ih =>
    intro h
    simp only [mapOpt, h x (List.mem_cons_self x xs),
      ih fun a ha => h a (List.mem_cons_of_mem x ha), Option.map_some',
      List.map_cons]

/-- The concrete response used to refute C4 as stated: a success response
with one bookmark whose `range` field is present but malformed. -/
def respC4 : BookmarkResp := ⟨true, [⟨some 1, some "a-1", 0⟩]⟩

/-- C4 counterexample: the claim says the range start defaults to 0 when the
field is "absent or malformed", but for the present-and-malformed range
`"a-1"` the code computes `int("a")`, which raises `ValueError` instead of
returning the sorted entries. -/
theorem C4_get_bookmark_list_counterexample :
    get_bookmark_list respC4 = PyResult.exn := rfl

/-- C4 (amended): `chapterUid` defaults to 1 when absent; the range defaults
to `"0-0"` when absent and an empty before-dash prefix is treated as 0, but
a malformed non-empty prefix raises `ValueError`.  Whenever every entry's
key is computable, the result is a permutation of the input entries with
consecutive sort keys `(chapterUid, range start)` non-decreasing in
lexicographic order. -/
theorem C4_get_bookmark_list_amended (resp : BookmarkResp)
    (hok : resp.ok = true)
    (hkeys : ∀ b ∈ resp.updated, (bmKey b).isSome = true) :
    ∃ l, get_bookmark_list resp = PyResult.val (some l) ∧
      l.Perm resp.updated ∧
      List.Chain' (fun a b => keyLe (bmKeyD a) (bmKeyD b)) l := by
  have hmap : mapOpt (fun b => (bmKey b).map fun k => (k, b)) resp.updated =
      some (resp.updated.map fun b => (bmKeyD b, b)) := by
    apply mapOpt_eq_map
    intro b hb
    have hsome := hkeys b hb
    cases hk : bmKey b with
    | none => rw [hk] at hsome; cases hsome
    | some k => simp [hk, bmKeyD]
  rw [get_bookmark_list, hok, if_pos rfl, hmap]
  refine ⟨_, rfl, ?_, ?_⟩
  · have hperm := (List.perm_insertionSort bmPairLe
      (resp.updated.map fun b => (bmKeyD b, b))).map fun p => p.2
    simpa [List.map_map, Function.comp_def] using hperm
  · have hs := List.sorted_insertionSort bmPairLe
      (resp.updated.map fun b => (bmKeyD b, b))
    have hkeyprop : ∀ p ∈ List.insertionSort bmPairLe
        (resp.updated.map fun b => (bmKeyD b, b)), p.1 = bmKeyD p.2 := by
      intro p hp
      have hp2 := (List.perm_insertionSort bmPairLe
        (resp.updated.map fun b => (bmKeyD b, b))).mem_iff.mp hp
      rw [List.mem_map] at hp2
      obtain ⟨b, -, rfl⟩ := hp2
      rfl
    have hp2 : List.Pairwise (fun a b => keyLe (bmKeyD a.2) (bmKeyD b.2))
        (List.insertionSort bmPairLe
          (resp.updated.map fun b => (bmKeyD b, b))) := by
      refine List.Pairwise.imp_of_mem ?_ hs
      intro a b ha hb hab
      rw [← hkeyprop a ha, ← hkeyprop b hb]
      exact hab
    exact (List.chain'_map
      (fun p : (Int × Int) × BookmarkEntry => p.2)).mpr hp2.chain'

/-- The spec's end-to-end example: `(chapterUid=2, "10-20")` and
`(chapterUid=1, "5-9")`. -/
def respC4w : BookmarkResp :=
  ⟨true, [⟨some 2, some "10-20", 0⟩, ⟨some 1, some "5-9", 1⟩]⟩

/-- C4 witness: the amended theorem applied to the spec's example. -/
theorem C4_get_bookmark_list_witness :
    ∃ l, get_bookmark_list respC4w = PyResult.val (some l) ∧
      l.Perm respC4w.updated ∧
      List.Chain' (fun a b => keyLe (bmKeyD a) (bmKeyD b)) l :=
  C4_get_bookmark_list_amended respC4w rfl (by decide)

/-- One record of the upstream `books` list. -/
structure NotebookBook where
  sort : Option Int
  tag : Nat
deriving DecidableEq

/-- The parsed upstream response of `user/notebooks`. -/
structure NotebookResp where
  ok : Bool
  books : List NotebookBook

/-- Order on (sort value, book) pairs used by `books.sort(key=...)`. -/
def nbPairLe (a b : Int × NotebookBook) : Prop := a.1 ≤ b.1

instance : DecidableRel nbPairLe := fun a b => by
  unfold nbPairLe
  infer_instance

instance : IsTotal (Int × NotebookBook) nbPairLe :=
  ⟨by intro a b; unfold nbPairLe; omega⟩

instance : IsTrans (Int × NotebookBook) nbPairLe :=
  ⟨by intro a b c; unfold nbPairLe; omega⟩

/-- Translated from `WeReadClient.get_notebooklist` (client.py:57-72):
on success the books are sorted by `x["sort"]`, an unconditional subscript
that raises `KeyError` (`.exn`) when the field is absent; on non-success
the method returns `None`. -/
def get_notebooklist (resp : NotebookResp) :
    PyResult (Option (List NotebookBook)) :=
  if resp.ok then
    match mapOpt (fun b => b.sort.map fun s => (s, b)) resp.books with
    | none => PyResult.exn
    | some keyed =>
      PyResult.val (some ((List.insertionSort nbPairLe keyed).map fun p => p.2))
  else PyResult.val none

/-- C10: `get_notebooklist` returns `None` exactly for non-success statuses;
on success it accesses `x["sort"]` unconditionally, so a success response
holding a record without the field raises (`.exn`) rather than returning a
sequence or `None`; and when every record has the field, it returns the
books sorted by it. -/
theorem C10_get_notebooklist_sort_access (resp : NotebookResp) :
    (resp.ok = false → get_notebooklist resp = PyResult.val none) ∧
    (resp.ok = true → get_notebooklist resp ≠ PyResult.val none) ∧
    (resp.ok = true → (∀ b ∈ resp.books, b.sort.isSome = true) →
      ∃ l, get_notebooklist resp = PyResult.val (some l) ∧
        l.Perm resp.books ∧
        List.Chain' (fun a b => a.sort.getD 0 ≤ b.sort.getD 0) l) ∧
    (get_notebooklist ⟨true, [⟨none, 0⟩]⟩ = PyResult.exn) := by
  refine ⟨fun h => by simp [get_notebooklist, h], ?_, ?_, rfl⟩
  · intro hok
    rw [get_notebooklist, hok, if_pos rfl]
    cases hm : mapOpt (fun b => b.sort.map fun s => (s, b)) resp.books with
    | none => simp
    | some keyed => simp
  · intro hok hsorts
    have hmap : mapOpt (fun b => b.sort.map fun s => (s, b)) resp.books =
        some (resp.books.map fun b => (b.sort.getD 0, b)) := by
      apply mapOpt_eq_map
      intro b hb
      have hsome := hsorts b hb
      cases hk : b.sort with
      | none => rw [hk] at hsome; cases hsome
      | some s => simp [hk]
    rw [get_notebooklist, hok, if_pos rfl, hmap]
    refine ⟨_, rfl, ?_, ?_⟩
    · have hperm := (List.perm_insertionSort nbPairLe
        (resp.books.map fun b => (b.sort.getD 0, b))).map fun p => p.2
      simpa [List.map_map, Function.comp_def] using hperm
    · have hs := List.sorted_insertionSort nbPairLe
        (resp.books.map fun b => (b.sort.getD 0, b))
      have hkeyprop : ∀ p ∈ List.insertionSort nbPairLe
          (resp.books.map fun b => (b.sort.getD 0, b)),
            p.1 = p.2.sort.getD 0 := by
        intro p hp
        have hp2 := (List.perm_insertionSort nbPairLe
          (resp.books.map fun b => (b.sort.getD 0, b))).mem_iff.mp hp
        rw [List.mem_map] at hp2
        obtain ⟨b, -, rfl⟩ := hp2
        rfl
      have hp2 : List.Pairwise
          (fun a b => a.2.sort.getD 0 ≤ b.2.sort.getD 0)
          (List.insertionSort nbPairLe
            (resp.books.map fun b => (b.sort.getD 0, b))) := by
        refine List.Pairwise.imp_of_mem ?_ hs
        intro a b ha hb hab
        rw [← hkeyprop a ha, ← hkeyprop b hb]
        exact hab
      exact (List.chain'_map
        (fun p : Int × NotebookBook => p.2)).mpr hp2.chain'

/-- C10 witness: a success response with two sortable books, plus the
raising case evaluated concretely inside the theorem itself. -/
theorem C10_get_notebooklist_witness :
    ∃ l, get_notebooklist ⟨true, [⟨some 5, 0⟩, ⟨some 3, 1⟩]⟩ =
        PyResult.val (some l) ∧
      l.Perm [⟨some 5, 0⟩, ⟨some 3, 1⟩] ∧
      List.Chain' (fun a b => a.sort.getD 0 ≤ b.sort.getD 0) l :=
  (C10_get_notebooklist_sort_access ⟨true, [⟨some 5, 0⟩, ⟨some 3, 1⟩]⟩).2.2.1
    rfl (by decide)

/-- One item of a chapter `updated` list. -/
structure ChapterItem where
  chapterUid : Option Int
  tag : Nat
deriving DecidableEq

/-- One element of the chapter response's `data` array. -/
structure ChapterBlock where
  updated : Option (List ChapterItem)
deriving DecidableEq

/-- The parsed upstream response of `book/chapterInfos`. -/
structure ChapterResp where
  ok : Bool
  data : Option (List ChapterBlock)
deriving DecidableEq

/-- Translated from `WeReadClient.get_chapter_info` (client.py:168-189):
the guarded condition requires a successful status, a `data` array of
length exactly 1 whose element has an `updated` field; the dict
comprehension `{item["chapterUid"]: item for item in update}` subscripts
unconditionally (`KeyError` = `.exn`) and later duplicates overwrite. -/
def get_chapter_info (resp : ChapterResp) :
    PyResult (Option (List (Int × ChapterItem))) :=
  if resp.ok then
    match resp.data with
    | some [blk] =>
      match blk.updated with
      | some items =>
        match mapOpt (fun it => it.chapterUid.map fun u => (u, it)) items with
        | none => PyResult.exn
        | some pairs =>
          PyResult.val (some (pairs.foldl (fun m p => setAssoc m p.1 p.2) []))
      | none => PyResult.val none
    | _ => PyResult.val none
  else PyResult.val none

/-- The claim's shape condition, stated the spec's way: `none` whenever the
status is non-success, the data array is absent, its length is not exactly
1, or its single element lacks `updated`. -/
def chapterUpdated (resp : ChapterResp) : Option (List ChapterItem) :=
  if resp.ok then
    match resp.data with
    | some l => if l.length = 1 then (l.headD ⟨none⟩).updated else none
    | none => none
  else none

theorem setAssoc_eq_append {κ β : Type} [BEq κ] [LawfulBEq κ] :
    ∀ (m : List (κ × β)) (k : κ) (v : β), (∀ q ∈ m, ¬(k = q.1)) →
      setAssoc m k v = m ++ [(k, v)] := by
  intro m
  induction m with
  | nil => intro k v _; rfl
  | cons q rest ih =>
    intro k v h
    have hne : ¬(q.1 == k) = true := by
      rw [beq_iff_eq]
      intro he
      exact h q (List.mem_cons_self q rest) he.symm
    cases q with
    | mk k2 v2 =>
      simp only [setAssoc, if_neg hne, List.cons_append]
      rw [ih k v fun q2 hq2 => h q2 (List.mem_cons_of_mem _ hq2)]

theorem foldl_setAssoc_nodup {κ β : Type} [BEq κ] [LawfulBEq κ] :
    ∀ (pairs acc : List (κ × β)),
      (∀ p ∈ pairs, ∀ q ∈ acc, ¬(p.1 = q.1)) →
      List.Pairwise (fun a b => a.1 ≠ b.1) pairs →
      pairs.foldl (fun m p => setAssoc m p.1 p.2) acc = acc ++ pairs := by
  intro pairs
  induction pairs with
  | nil => intro acc _ _; simp
  | cons p rest ih =>
    intro acc hdisj hpw
    rw [List.foldl_cons,
      setAssoc_eq_append acc p.1 p.2 (hdisj p (List.mem_cons_self p rest))]
    rw [List.pairwise_cons] at hpw
    rw [ih (acc ++ [(p.1, p.2)]) ?_ hpw.2]
    · simp
    · intro p2 hp2 q hq
      rcases List.mem_append.mp hq with hq1 | hq2
      · exact hdisj p2 (List.mem_cons_of_mem p hp2) q hq1
      · rw [List.mem_singleton] at hq2
        subst hq2
        exact fun he => (hpw.1 p2 hp2) he.symm

theorem lookupAssoc_of_pairwise {κ β : Type} [BEq κ] [LawfulBEq κ] :
    ∀ (l : List (κ × β)), List.Pairwise (fun a b => a.1 ≠ b.1) l →
      ∀ p ∈ l, lookupAssoc l p.1 = some p.2 := by
  intro l
  induction l with
  | nil => intro _ p hp; cases hp
  | cons a rest ih =>
    intro hpw p hp
    rw [List.pairwise_cons] at hpw
    rcases List.mem_cons.mp hp with rfl | hp2
    · simp [lookupAssoc, List.find?_cons]
    · have hbeq : (a.1 == p.1) = false := by
        rw [beq_eq_false_iff_ne]
        exact hpw.1 p hp2
      simp only [lookupAssoc, List.find?_cons, hbeq]
      exact ih hpw.2 p hp2

/-- C8: `get_chapter_info` returns the unavailable result exactly when the
status is non-success, the data array is absent or not of length 1, or its
single element lacks `updated`; otherwise (for items that each carry a
`chapterUid`, pairwise distinct) it returns the mapping sending each item's
`chapterUid` to that item. -/
theorem C8_get_chapter_info_shape (resp : ChapterResp) :
    (chapterUpdated resp = none → get_chapter_info resp = PyResult.val none) ∧
    (∀ items, chapterUpdated resp = some items →
      (∀ it ∈ items, it.chapterUid.isSome = true) →
      List.Pairwise (fun a b => a.chapterUid ≠ b.chapterUid) items →
      ∃ m, get_chapter_info resp = PyResult.val (some m) ∧
        ∀ it ∈ items, ∀ u, it.chapterUid = some u →
          lookupAssoc m u = some it) := by
  have hcu : chapterUpdated resp =
      if resp.ok then
        (match resp.data with
         | some [blk] => blk.updated
         | _ => none)
      else none := by
    rw [chapterUpdated]
    cases resp.ok with
    | false => rfl
    | true =>
      cases hd : resp.data with
      | none => rfl
      | some l =>
        cases l with
        | nil => rfl
        | cons blk rest =>
          cases rest with
          | nil => rfl
          | cons b2 r2 => rfl
  constructor
  · intro hnone
    rw [hcu] at hnone
    rw [get_chapter_info]
    cases hok : resp.ok with
    | false => rfl
    | true =>
      rw [hok, if_pos rfl] at hnone
      rw [if_pos rfl]
      cases hd : resp.data with
      | none => rfl
      | some l =>
        rw [hd] at hnone
        cases l with
        | nil => rfl
        | cons blk rest =>
          cases rest with
          | nil =>
            have hupd : blk.updated = none := hnone
            simp [hupd]
          | cons blk2 rest2 =>
            rfl
  · intro items hsome huids hdistinct
    rw [hcu] at hsome
    have hok : resp.ok = true := by
      by_contra hok
      rw [Bool.not_eq_true] at hok
      rw [hok] at hsome
      simp at hsome
    obtain ⟨blk, hdata, hupd⟩ : ∃ blk, resp.data = some [blk] ∧
        blk.updated = some items := by
      rw [hok, if_pos rfl] at hsome
      cases hd : resp.data with
      | none => rw [hd] at hsome; cases hsome
      | some l =>
        rw [hd] at hsome
        cases l with
        | nil => simp at hsome
        | cons blk rest =>
          cases rest with
          | nil => exact ⟨blk, rfl, hsome⟩
          | cons blk2 rest2 => simp at hsome
    have hmap : mapOpt (fun it => it.chapterUid.map fun u => (u, it)) items =
        some (items.map fun it => (it.chapterUid.getD 0, it)) := by
      apply mapOpt_eq_map
      intro it hit
      have hsome2 := huids it hit
      cases hu : it.chapterUid with
      | none => rw [hu] at hsome2; cases hsome2
      | some u => simp [hu]
    rw [get_chapter_info, hok, if_pos rfl, hdata]
    simp only [hupd, hmap]
    have hkeys : List.Pairwise (fun a b => a.1 ≠ b.1)
        (items.map fun it => (it.chapterUid.getD 0, it)) := by
      rw [List.pairwise_map]
      refine List.Pairwise.imp_of_mem ?_ hdistinct
      intro a b ha hb hab
      have hsa := huids a ha
      have hsb := huids b hb
      cases hua : a.chapterUid with
      | none => rw [hua] at hsa; cases hsa
      | some ua =>
        cases hub : b.chapterUid with
        | none => rw [hub] at hsb; cases hsb
        | some ub =>
          rw [hua, hub] at hab
          simp only [hua, hub, Option.getD_some, ne_eq]
          intro he
          exact hab (by rw [he])
    rw [foldl_setAssoc_nodup _ [] (by simp) hkeys, List.nil_append]
    refine ⟨_, rfl, ?_⟩
    intro it hit u hu
    have hmem : (u, it) ∈ items.map fun it => (it.chapterUid.getD 0, it) := by
      rw [List.mem_map]
      exact ⟨it, hit, by rw [hu]; rfl⟩
    have := lookupAssoc_of_pairwise _ hkeys (u, it) hmem
    exact this

/-- C8 witness: a well-shaped response with two distinct chapters. -/
theorem C8_get_chapter_info_witness :
    ∃ m, get_chapter_info
        ⟨true, some [⟨some [⟨some 10, 0⟩, ⟨some 20, 1⟩]⟩]⟩ =
      PyResult.val (some m) ∧
      ∀ it ∈ [(⟨some 10, 0⟩ : ChapterItem), ⟨some 20, 1⟩], ∀ u,
        it.chapterUid = some u → lookupAssoc m u = some it :=
  (C8_get_chapter_info_shape ⟨true, some [⟨some [⟨some 10, 0⟩, ⟨some 20, 1⟩]⟩]⟩).2
    [⟨some 10, 0⟩, ⟨some 20, 1⟩] rfl (by decide) (by decide)

/-- The parsed upstream response of `book/info`, at the two fields the
method reads. -/
structure BookInfoResp where
  ok : Bool
  isbn : Option String
  newRating : Option Int

/-- Translated from `WeReadClient.get_bookinfo` (client.py:117-139): on
success, `data.get("isbn", "")` paired with `data.get("newRating", 0)/1000`
(true division, modelled exactly in `ℚ`); `("", 0)` otherwise. -/
def get_bookinfo (resp : BookInfoResp) : String × ℚ :=
  if resp.ok then
    (resp.isbn.getD "", ((resp.newRating.getD 0 : Int) : ℚ) / 1000)
  else ("", 0)

/-- C9: `get_bookinfo` never raises; every non-success response yields the
default pair `("", 0)`; a success response yields the `isbn` value
(defaulting to `""`) paired with `newRating` (defaulting to 0) divided by
1000, so `newRating = 4500` yields rating `4.5 = 9/2`. -/
theorem C9_get_bookinfo_defaults (resp : BookInfoResp) :
    (resp.ok = false → get_bookinfo resp = ("", 0)) ∧
    (resp.ok = true → (get_bookinfo resp).1 = resp.isbn.getD "" ∧
      1000 * (get_bookinfo resp).2 = ((resp.newRating.getD 0 : Int) : ℚ)) ∧
    (resp.ok = true → resp.newRating = some 4500 →
      (get_bookinfo resp).2 = 9 / 2) := by
  refine ⟨fun h => by simp [get_bookinfo, h], fun h => ⟨?_, ?_⟩, fun h h45 => ?_⟩
  · simp [get_bookinfo, h]
  · simp only [get_bookinfo, h, if_true, eq_self_iff_true]
    rw [mul_comm, div_mul_cancel₀]
    norm_num
  · simp only [get_bookinfo, h, h45, if_true, eq_self_iff_true,
      Option.getD_some]
    norm_num

/-- C9 witness: a success response carrying `newRating = 4500`. -/
theorem C9_get_bookinfo_witness :
    (get_bookinfo ⟨true, some "9787530216859", some 4500⟩).2 = 9 / 2 :=
  (C9_get_bookinfo_defaults ⟨true, some "9787530216859", some 4500⟩).2.2 rfl rfl

/-- The exceptions that can surface from `WeReadClient` construction, plus
the `AuthenticationError` the spec claims (which the repository never
defines or raises — the constructor performs no credential validation). -/
inductive PyExc where
  | connectionError
  | attributeError
  | authenticationError
deriving DecidableEq

/-- Split a character list at every occurrence of `sep`. -/
def splitOnChar (sep : Char) : List Char → List (List Char)
  | [] => [[]]
  | c :: rest =>
    match splitOnChar sep rest with
    | [] => [[]]
    | grp :: grps => if c = sep then [] :: grp :: grps else (c :: grp) :: grps

/-- Strip occurrences of `x` from both ends. -/
def trimChar (x : Char) (l : List Char) : List Char :=
  ((l.dropWhile fun c => c = x).reverse.dropWhile fun c => c = x).reverse

/-- Translated from `WeReadClient._parse_cookie_string` (client.py:38-55).
`SimpleCookie` parsing modelled for plain `name=value; name2=value2`
credential strings (later duplicates overwrite); segments without `=` or
without a name contribute nothing.  The loop rebuilds the cookiejar once
per parsed pair and leaves it `None` when no pair was parsed — in
particular for the empty credential string. -/
def parse_cookie_string (cookie_string : String) :
    Option (List (String × String)) :=
  let pairs := (splitOnChar ';' cookie_string.toList).filterMap fun seg =>
    let seg2 := trimChar ' ' seg
    let key := seg2.takeWhile fun c => c ≠ '='
    if seg2.any (fun c => c = '=') && !key.isEmpty then
      some (String.mk key, String.mk (seg2.drop (key.length + 1)))
    else none
  if pairs.isEmpty then none
  else some (pairs.foldl (fun m p => setAssoc m p.1 p.2) [])

/-- Translated from `WeReadClient.__init__` (client.py:26-36), with the
transport outcome of the probe `self.session.get(WEREAD_URL)` as an oracle
parameter.  The constructor performs no credential validation and defines
no error of its own: a transport failure propagates the HTTP library's
`ConnectionError`; when the probe's HTTP round trip succeeds but the
parsed jar is `None` (e.g. the empty credential), the library's response
handling calls `extract_cookies_to_jar(None, ...)` and raises
`AttributeError`; otherwise the client is constructed holding the jar. -/
def weread_init (cookie_string : String) (transportOk : Bool) :
    Except PyExc (List (String × String)) :=
  if transportOk then
    match parse_cookie_string cookie_string with
    | none => Except.error PyExc.attributeError
    | some jar => Except.ok jar
  else Except.error PyExc.connectionError

/-- C5 counterexample: constructing from the empty credential does not
raise `AuthenticationError` — with a reachable upstream it raises
`AttributeError` (the cookie jar is `None` inside the HTTP library), and
with an unreachable one it raises the transport's `ConnectionError`.  No
`AuthenticationError` exists anywhere in the repository. -/
theorem C5_weread_init_counterexample :
    weread_init "" true = Except.error PyExc.attributeError ∧
      weread_init "" false = Except.error PyExc.connectionError :=
  ⟨rfl, rfl⟩

/-- C5 (amended): construction never fails with an `AuthenticationError`
(no such error exists in the codebase and no credential validation is
performed); a transport-level probe failure propagates as the transport's
`ConnectionError`; a succeeding probe with an empty parse result (such as
the empty credential) raises `AttributeError`; any other succeeding probe
constructs the client with the parsed cookie jar. -/
theorem C5_weread_init_amended (cookie : String) (transportOk : Bool) :
    (weread_init cookie transportOk ≠ Except.error PyExc.authenticationError) ∧
    (transportOk = false →
      weread_init cookie transportOk = Except.error PyExc.connectionError) ∧
    (transportOk = true → parse_cookie_string cookie = none →
      weread_init cookie transportOk = Except.error PyExc.attributeError) ∧
    (transportOk = true → ∀ jar, parse_cookie_string cookie = some jar →
      weread_init cookie transportOk = Except.ok jar) := by
  unfold weread_init
  cases transportOk with
  | false => simp
  | true =>
    cases hp : parse_cookie_string cookie with
    | none => simp
    | some jar => simp

/-- C5 witness: the amended theorem applied to the empty credential with a
failing probe. -/
theorem C5_weread_init_witness :
    weread_init "" false = Except.error PyExc.connectionError :=
  (C5_weread_init_amended "" false).2.1 rfl

/-! ### Concrete evaluations

Sanity checks of the embedding against reference runs of the Python code
(the two-point digest oracles carry the real MD5 values of the inputs that
occur in each run). -/

example : transform_id "123\n" = some ("3", ["7b"]) := by decide
example : transform_id "abc" = some ("4", ["616263"]) := by decide
example : transform_id "\n" = none := by decide
example : transform_id "" = some ("3", []) := by decide
example : transform_id "123456789012" = some ("3", ["75bcd15", "c"]) := by decide
example : pyInt "  +1_23\n" = some 123 := by decide
example : pyInt "1__2" = none := by decide
example : calculate_book_str_id (fun _ => "") "\n" = none := by decide

example :
    calculate_book_str_id
      (fun s =>
        if s = "abc" then "900150983cd24fb0d6963f7d28e17f72"
        else "6d7dc843fe543ff7324948d28654fd38")
      "abc" = some "900427206616263900156d7" := by decide

example :
    calculate_book_str_id
      (fun s =>
        if s = "3300028078" then "c5c389b23fd2d57b4641285877e4d717"
        else "1aed89cc3806870d754046e7c8c33dd6")
      "3300028078" = some "c5c32170813ab7177g0181ae" := by decide

end WeRead
